import Mathlib

/-!
Verification development for the agent-fork-join merge daemon
(queue.rs, merger.rs, ipc.rs).

The Rust code is shallowly embedded:
  - `QueueEntry`, `EntryStatus`, `MergeResult`, `QueueStatus` mirror the
    types in queue.rs.  `Uuid` is abstracted as a `Nat` drawn from a fresh
    counter (only freshness/distinctness of ids matters); timestamps are
    opaque `Nat`s; git object ids are `Nat`s.
  - Every queue operation is a pure function from the pre-state to a pair
    of (result, post-state).  The post-state is returned even when the
    result is an error, because in the Rust code the queue lives behind a
    mutex and mutations performed before a failing `?` persist.
  - Calls to the persistence layer (`StateManager::save_entry` /
    `delete_entry`) are modelled by a boolean parameter `pOk` saying
    whether that call succeeds; a failing call produces `persistError`
    at the point where the Rust code propagates the store's error.
  - The processor loop (`process_loop` / `process_next`) is modelled as a
    small-step transition relation: the claim of the next pending entry
    and the recording of the merge outcome are separate atomic steps, with
    client operations free to interleave, exactly as the two separate
    lock-scopes in `process_next` allow.
-/

namespace ForkJoin

/-- Status of a queue entry (queue.rs, enum EntryStatus). -/
inductive EntryStatus
  | pending
  | processing
  | merged
  | conflict
  | failed
  | cancelled
deriving DecidableEq, Repr

/-- Entry in the merge queue (queue.rs, struct QueueEntry).  `id` is the
Uuid abstracted to a Nat, `worktree` is kept as a string, `queued_at` is an
opaque timestamp. -/
structure QueueEntry where
  id : Nat
  agent_id : String
  session_id : String
  branch : String
  worktree : String
  target_branch : String
  attempts : Nat
  queued_at : Nat
  status : EntryStatus
  last_error : Option String
  conflict_files : List String
deriving DecidableEq, Repr

/-- Result of a merge operation (queue.rs, enum MergeResult); commit shas
are abstracted as the Nat object id. -/
inductive MergeResult
  | success (commit_sha : Nat)
  | conflict (files : List String)
  | failedR (error : String)
deriving DecidableEq, Repr

/-- Errors surfaced by the queue (error.rs is not part of the sources; the
variants are those constructed in queue.rs, plus `persistError` standing
for whatever error the persistence layer returned). -/
inductive DaemonError
  | queueFull (limit : Nat)
  | agentAlreadyQueued (agent_id : String)
  | agentNotFound (agent_id : String)
  | maxRetriesExceeded (agent_id : String)
  | persistError
deriving DecidableEq, Repr

/-- Configuration fields consulted by the queue (config.rs is not part of
the sources; these are the fields queue.rs reads). -/
structure Config where
  max_queue_size : Nat
  max_retries : Nat
deriving DecidableEq, Repr

/-- Mutable state of the MergeQueue: the VecDeque of entries, the shutdown
flag, and the counter supplying fresh entry ids (abstracting Uuid::new_v4). -/
structure QueueState where
  queue : List QueueEntry
  shutdown : Bool
  nextId : Nat
deriving DecidableEq, Repr

/-- Queue status summary (queue.rs, struct QueueStatus). -/
structure QueueStatus where
  length : Nat
  pending : Nat
  processing : Nat
  agents : List String
deriving DecidableEq, Repr

/-- Position of the first element satisfying `p` (models
`Iterator::position` / `iter().find` on the VecDeque). -/
def findPos {α : Type} (p : α → Bool) : List α → Option Nat
  | [] => none
  | a :: rest => if p a then some 0 else (findPos p rest).map (· + 1)

/-- Placeholder entry used as the default for `List.getD`; every access is
guarded by a `findPos … = some i` fact, so the default is never read. -/
def defaultEntry : QueueEntry :=
  ⟨0, "", "", "", "", "", 0, 0, .pending, none, []⟩

instance : Inhabited QueueEntry := ⟨defaultEntry⟩

instance {ε α : Type} [DecidableEq ε] [DecidableEq α] :
    DecidableEq (Except ε α) := fun x y =>
  match x, y with
  | .ok a, .ok b =>
      if h : a = b then isTrue (by rw [h])
      else isFalse (by intro hh; cases hh; exact h rfl)
  | .ok _, .error _ => isFalse (by intro hh; cases hh)
  | .error _, .ok _ => isFalse (by intro hh; cases hh)
  | .error e, .error f =>
      if h : e = f then isTrue (by rw [h])
      else isFalse (by intro hh; cases hh; exact h rfl)

namespace MergeQueue

/-- Predicate used by enqueue's duplicate check (queue.rs line 160): an
entry with this agent_id in status Pending. -/
def isPendingDup (aid : String) (e : QueueEntry) : Bool :=
  decide (e.agent_id = aid ∧ e.status = EntryStatus.pending)

/-- MergeQueue::enqueue.  Checks capacity, then the Pending-duplicate
check, constructs the entry, persists it (modelled by `pOk`), then appends
and returns the prior length as the position. -/
def enqueue (cfg : Config) (pOk : Bool) (s : QueueState)
    (aid sid branch worktree target_branch : String) (now : Nat) :
    Except DaemonError Nat × QueueState :=
  if cfg.max_queue_size ≤ s.queue.length then
    (.error (.queueFull cfg.max_queue_size), s)
  else if s.queue.any (isPendingDup aid) then
    (.error (.agentAlreadyQueued aid), s)
  else
    let entry : QueueEntry :=
      { id := s.nextId, agent_id := aid, session_id := sid,
        branch := branch, worktree := worktree,
        target_branch := target_branch, attempts := 0, queued_at := now,
        status := .pending, last_error := none, conflict_files := [] }
    if pOk then
      (.ok s.queue.length,
       { s with queue := s.queue ++ [entry], nextId := s.nextId + 1 })
    else
      (.error .persistError, s)

/-- MergeQueue::dequeue.  Removes the first entry with this agent_id
(regardless of status), then deletes the persisted record; a failing
delete surfaces the error but the entry has already been removed. -/
def dequeue (pOk : Bool) (s : QueueState) (aid : String) :
    Except DaemonError (Option QueueEntry) × QueueState :=
  match findPos (fun e => decide (e.agent_id = aid)) s.queue with
  | some pos =>
      let entry := s.queue.getD pos defaultEntry
      let s' := { s with queue := s.queue.eraseIdx pos }
      if pOk then (.ok (some entry), s') else (.error .persistError, s')
  | none => (.ok none, s)

/-- In-place field update performed by retry (queue.rs lines 213-215):
status back to Pending, conflict_files cleared, last_error cleared;
attempts and everything else unchanged. -/
def repend (e : QueueEntry) : QueueEntry :=
  { e with status := .pending, conflict_files := [], last_error := none }

/-- MergeQueue::retry.  Finds the first entry with this agent_id
(regardless of status); errors with maxRetriesExceeded when
attempts ≥ max_retries; otherwise re-Pendings it, clears conflict_files
and last_error, persists, and returns the recomputed position. -/
def retry (cfg : Config) (pOk : Bool) (s : QueueState) (aid : String) :
    Except DaemonError Nat × QueueState :=
  match findPos (fun e => decide (e.agent_id = aid)) s.queue with
  | some pos =>
      let entry := s.queue.getD pos defaultEntry
      if cfg.max_retries ≤ entry.attempts then
        (.error (.maxRetriesExceeded aid), s)
      else
        let q' := s.queue.set pos (repend entry)
        let s' := { s with queue := q' }
        if pOk then
          ((findPos (fun e => decide (e.agent_id = aid)) q').elim
             (.error (.agentNotFound aid)) .ok, s')
        else
          (.error .persistError, s')
  | none => (.error (.agentNotFound aid), s)

/-- MergeQueue::status: snapshot of length, pending count, processing
count and the agent ids. -/
def status (s : QueueState) : QueueStatus :=
  { length := s.queue.length,
    pending := (s.queue.filter
      (fun e => decide (e.status = EntryStatus.pending))).length,
    processing := (s.queue.filter
      (fun e => decide (e.status = EntryStatus.processing))).length,
    agents := s.queue.map (·.agent_id) }

/-- MergeQueue::get_conflicts: conflict_files of the first entry with this
agent_id, for any status. -/
def get_conflicts (s : QueueState) (aid : String) :
    Except DaemonError (List String) :=
  match findPos (fun e => decide (e.agent_id = aid)) s.queue with
  | some pos => .ok (s.queue.getD pos defaultEntry).conflict_files
  | none => .error (.agentNotFound aid)

/-- In-place update performed when the processor claims an entry
(queue.rs lines 278-279): status to Processing, attempts incremented. -/
def claimed (e : QueueEntry) : QueueEntry :=
  { e with status := .processing, attempts := e.attempts + 1 }

/-- Claim phase of MergeQueue::process_next (first lock scope): find the
first Pending entry, flip it to Processing, increment attempts, persist.
A failing persist propagates the error out of process_next with the flip
already applied in memory. -/
def claimNext (pOk : Bool) (s : QueueState) :
    Except DaemonError (Option QueueEntry) × QueueState :=
  match findPos (fun e => decide (e.status = EntryStatus.pending)) s.queue with
  | some pos =>
      let entry' := claimed (s.queue.getD pos defaultEntry)
      let s' := { s with queue := s.queue.set pos entry' }
      if pOk then (.ok (some entry'), s') else (.error .persistError, s')
  | none => (.ok none, s)

/-- Outcome mapping applied by process_next when recording a merge result
(queue.rs lines 304-324): Success to Merged, Conflict to Conflict plus
the files, Failed and merge errors to Failed plus the message. -/
def applyOutcome (result : Except String MergeResult) (e : QueueEntry) :
    QueueEntry :=
  match result with
  | .ok (.success _) => { e with status := .merged }
  | .ok (.conflict files) =>
      { e with status := .conflict, conflict_files := files }
  | .ok (.failedR err) => { e with status := .failed, last_error := some err }
  | .error err => { e with status := .failed, last_error := some err }

/-- Recording phase of MergeQueue::process_next (second lock scope): find
the claimed entry by id (it may have been dequeued meanwhile, in which
case nothing happens), apply the outcome mapping, persist. -/
def recordOutcome (pOk : Bool) (s : QueueState) (entryId : Nat)
    (result : Except String MergeResult) :
    Except DaemonError Unit × QueueState :=
  match findPos (fun e => decide (e.id = entryId)) s.queue with
  | some pos =>
      let e' := applyOutcome result (s.queue.getD pos defaultEntry)
      let s' := { s with queue := s.queue.set pos e' }
      if pOk then (.ok (), s') else (.error .persistError, s')
  | none => (.ok (), s)

/-- MergeQueue::shutdown: sets the shutdown flag (and wakes waiters, which
has no state content here). -/
def shutdownOp (s : QueueState) : QueueState :=
  { s with shutdown := true }

end MergeQueue

/-- Program counter of the single processor task running process_loop:
at the top-of-loop shutdown check, past the check waiting on the
notify/timeout select, running the merge for a claimed entry id, or
exited after observing the shutdown flag. -/
inductive ProcPc
  | check
  | wait
  | merging (entryId : Nat)
  | done
deriving DecidableEq, Repr

/-- Whole-system state: the queue state (shared behind the mutex) plus the
processor's position in its loop. -/
structure SysState where
  qs : QueueState
  pc : ProcPc
deriving DecidableEq, Repr

/-- Processor pc after the claim phase of process_next: on a successful
claim the merge runs next; when there is no pending entry, or when the
persist inside the claim failed (the error is logged by process_loop), the
loop returns to the shutdown check. -/
def pcAfterClaim (r : Except DaemonError (Option QueueEntry)) : ProcPc :=
  match r with
  | .ok (some e) => .merging e.id
  | _ => .check

/-- Small-step transition relation of the daemon.  `claimOk` constrains
which persistence outcomes are allowed inside the claim phase (used to
compare runs with and without persistence failures); all other steps allow
both outcomes.  Client operations (enqueue, dequeue, retry, shutdown) can
interleave at any time; the processor steps follow process_loop. -/
inductive Step (cfg : Config) (claimOk : Bool → Prop) :
    SysState → SysState → Prop
  | enqueueStep (pOk : Bool) (aid sid br wt tb : String) (now : Nat)
      (s s' : SysState)
      (h : s' = { s with
        qs := (MergeQueue.enqueue cfg pOk s.qs aid sid br wt tb now).2 }) :
      Step cfg claimOk s s'
  | dequeueStep (pOk : Bool) (aid : String) (s s' : SysState)
      (h : s' = { s with qs := (MergeQueue.dequeue pOk s.qs aid).2 }) :
      Step cfg claimOk s s'
  | retryStep (pOk : Bool) (aid : String) (s s' : SysState)
      (h : s' = { s with qs := (MergeQueue.retry cfg pOk s.qs aid).2 }) :
      Step cfg claimOk s s'
  | shutdownStep (s s' : SysState)
      (h : s' = { s with qs := MergeQueue.shutdownOp s.qs }) :
      Step cfg claimOk s s'
  | checkContStep (s s' : SysState) (hpc : s.pc = .check)
      (hsd : s.qs.shutdown = false) (h : s' = { s with pc := .wait }) :
      Step cfg claimOk s s'
  | checkExitStep (s s' : SysState) (hpc : s.pc = .check)
      (hsd : s.qs.shutdown = true) (h : s' = { s with pc := .done }) :
      Step cfg claimOk s s'
  | claimStep (pOk : Bool) (hok : claimOk pOk) (s s' : SysState)
      (hpc : s.pc = .wait)
      (h : s' = { qs := (MergeQueue.claimNext pOk s.qs).2,
                  pc := pcAfterClaim (MergeQueue.claimNext pOk s.qs).1 }) :
      Step cfg claimOk s s'
  | recordStep (pOk : Bool) (i : Nat) (result : Except String MergeResult)
      (s s' : SysState) (hpc : s.pc = .merging i)
      (h : s' = { qs := (MergeQueue.recordOutcome pOk s.qs i result).2,
                  pc := .check }) :
      Step cfg claimOk s s'

/-- Initial state: empty queue, shutdown false, processor at the top of
its loop. -/
def initState : SysState := ⟨⟨[], false, 0⟩, .check⟩

/-- States reachable when persistence calls may fail anywhere. -/
def ReachableAny (cfg : Config) (s : SysState) : Prop :=
  Relation.ReflTransGen (Step cfg (fun _ => True)) initState s

/-- States reachable when the persistence write inside every claim step
succeeds (persistence may still fail in the other operations). -/
def ReachableSafe (cfg : Config) (s : SysState) : Prop :=
  Relation.ReflTransGen (Step cfg (fun b => b = true)) initState s

/-- Number of entries currently in status Processing. -/
def processingCount (q : List QueueEntry) : Nat :=
  (q.filter (fun e => decide (e.status = EntryStatus.processing))).length

/-!  Merger (merger.rs).  git2 is an external collaborator: the repository
is abstracted to a ref table, a log of created commits, a fresh-oid
counter, the checked-out HEAD ref, and a flag saying whether merge state
is clean.  The results of the external git2 queries `merge_analysis` and
of the post-merge index are inputs to the embedded control flow. -/

/-- Record of a commit created through Repository::commit. -/
structure CommitRec where
  oid : Nat
  parents : List Nat
  message : String
deriving DecidableEq, Repr

/-- Abstracted git repository state as touched by merger.rs. -/
structure RepoState where
  refs : List (String × Nat)
  headRef : String
  commits : List CommitRec
  nextOid : Nat
  mergeStateClean : Bool
deriving DecidableEq, Repr

/-- Branch-name lookup (find_branch + peel_to_commit). -/
def lookupRef (refs : List (String × Nat)) (name : String) : Option Nat :=
  (refs.find? (fun p => decide (p.1 = name))).map (·.2)

/-- Update (or create, with force) the ref for a branch
(Repository::reference with force = true): rebind the first binding of
this name, or append a new binding. -/
def setRef (refs : List (String × Nat)) (name : String) (oid : Nat) :
    List (String × Nat) :=
  match refs with
  | [] => [(name, oid)]
  | p :: rest =>
      if p.1 = name then (name, oid) :: rest
      else p :: setRef rest name oid

/-- Outcome of the external merge_analysis call: the code checks
is_up_to_date first, then is_fast_forward. -/
structure AnalysisFlags where
  upToDate : Bool
  fastForward : Bool
deriving DecidableEq, Repr

/-- One record of Index::conflicts(): the optional our/their/ancestor
sides, each carrying its path (already utf8-decoded; paths whose bytes do
not decode are modelled as absent, matching the from_utf8(..).ok()
filter). -/
structure ConflictRec where
  our : Option String
  their : Option String
  ancestor : Option String
deriving DecidableEq, Repr

/-- State of the index produced by the external three-way merge: either it
has conflicts (with their records) or it is clean and writes this tree. -/
inductive IndexResult
  | conflicted (recs : List ConflictRec)
  | clean (treeId : Nat)
deriving DecidableEq, Repr

namespace Merger

/-- Merger::get_conflict_files: for each conflict record take the path of
our, else their, else ancestor, skipping records with no side present. -/
def get_conflict_files (recs : List ConflictRec) : List String :=
  recs.filterMap (fun c => (c.our.or c.their).or c.ancestor)

/-- Repository::commit with update_ref = "HEAD": records the new commit
and advances the ref HEAD points at. -/
def commitOn (r : RepoState) (parents : List Nat) (message : String) :
    Nat × RepoState :=
  (r.nextOid,
   { r with
     refs := setRef r.refs r.headRef r.nextOid
     commits := r.commits ++ [⟨r.nextOid, parents, message⟩]
     nextOid := r.nextOid + 1 })

/-- Merger::do_merge (merge strategy), with the external analysis and
merged-index results passed in.  `target` and `agent` are the commits the
caller resolved from the branch names. -/
def do_merge (r : RepoState) (target agent : Nat) (entry : QueueEntry)
    (analysis : AnalysisFlags) (idx : IndexResult) :
    RepoState × MergeResult :=
  if analysis.upToDate then
    (r, .success target)
  else if analysis.fastForward then
    ({ r with refs := setRef r.refs entry.target_branch agent },
     .success agent)
  else
    let rMerged := { r with mergeStateClean := false }
    match idx with
    | .conflicted recs =>
        let conflicts := get_conflict_files recs
        ({ rMerged with mergeStateClean := true }, .conflict conflicts)
    | .clean _ =>
        let message :=
          "Merge agent " ++ entry.agent_id ++ " into " ++ entry.target_branch
        let (cid, r') := commitOn rMerged [target, agent] message
        ({ r' with mergeStateClean := true }, .success cid)

/-- Merger::merge restricted to the merge strategy: resolve both branches,
check out the target branch (set_head + forced checkout), then run
do_merge.  Branch-lookup failures become git2 errors, which process_next
maps to Failed. -/
def merge (r : RepoState) (entry : QueueEntry) (analysis : AnalysisFlags)
    (idx : IndexResult) : Except String (RepoState × MergeResult) :=
  match lookupRef r.refs entry.target_branch with
  | none => .error ("branch not found: " ++ entry.target_branch)
  | some target =>
      match lookupRef r.refs entry.branch with
      | none => .error ("branch not found: " ++ entry.branch)
      | some agent =>
          let rHead := { r with headRef := entry.target_branch }
          .ok (do_merge rHead target agent entry analysis idx)

end Merger

/-!  IPC server (ipc.rs).  The socket transport and serde are external:
parsing a line into a Request is a parameter, and responses are modelled
as the Response values that handle_connection serializes and writes, one
newline-terminated line each. -/

/-- Request types from clients (ipc.rs, enum Request). -/
inductive Request
  | register (agent_id : String)
  | enqueueReq (agent_id session_id branch worktree target_branch : String)
  | dequeueReq (agent_id : String)
  | statusReq
  | conflictsReq (agent_id : String)
  | retryReq (agent_id : String)
  | waitReq (agent_id : String)
  | sessionEnd (session_id : String)
  | shutdownReq
deriving DecidableEq, Repr

/-- Response to clients (ipc.rs, enum Response). -/
inductive Response
  | okResp (status : String)
  | position (status : String) (position : Nat)
  | statusResp (queue_length pending processing : Nat)
      (agents : List String)
  | conflictsResp (files : List String)
  | mergeResultResp (result : String) (details : Option String)
  | errorResp (status : String) (error : String)
deriving DecidableEq, Repr

/-- Modelled from the spec: the Display rendering of DaemonError lives in
src/error.rs, which is not among the sources; §7 only requires a
human-readable message naming the error kind, so one is chosen here.  No
claim depends on the exact text. -/
def DaemonError.message : DaemonError → String
  | .queueFull limit => "queue is full (max " ++ toString limit ++ ")"
  | .agentAlreadyQueued aid => "AgentAlreadyQueued: " ++ aid
  | .agentNotFound aid => "AgentNotFound: " ++ aid
  | .maxRetriesExceeded aid => "MaxRetriesExceeded: " ++ aid
  | .persistError => "persistence error"

namespace Ipc

/-- process_request (ipc.rs): dispatch one parsed request to the queue and
build the response.  `pOk` models the persistence calls made by the
dispatched queue operation and `now` the enqueue timestamp. -/
def process_request (cfg : Config) (pOk : Bool) (now : Nat)
    (req : Request) (s : QueueState) : Response × QueueState :=
  match req with
  | .register _ => (.okResp "OK", s)
  | .enqueueReq aid sid br wt tb =>
      match MergeQueue.enqueue cfg pOk s aid sid br wt tb now with
      | (.ok pos, s') => (.position "OK" pos, s')
      | (.error e, s') => (.errorResp "ERROR" e.message, s')
  | .dequeueReq aid =>
      match MergeQueue.dequeue pOk s aid with
      | (.ok _, s') => (.okResp "OK", s')
      | (.error e, s') => (.errorResp "ERROR" e.message, s')
  | .statusReq =>
      let st := MergeQueue.status s
      (.statusResp st.length st.pending st.processing st.agents, s)
  | .conflictsReq aid =>
      match MergeQueue.get_conflicts s aid with
      | .ok files => (.conflictsResp files, s)
      | .error e => (.errorResp "ERROR" e.message, s)
  | .retryReq aid =>
      match MergeQueue.retry cfg pOk s aid with
      | (.ok pos, s') => (.position "OK" pos, s')
      | (.error e, s') => (.errorResp "ERROR" e.message, s')
  | .waitReq _ =>
      (.mergeResultResp "PENDING" (some "Waiting not yet implemented"), s)
  | .sessionEnd _ => (.okResp "OK", s)
  | .shutdownReq => (.okResp "OK", MergeQueue.shutdownOp s)

/-- Body of the read loop in handle_connection for one received line:
parse it (serde is external, so the parser is a parameter returning either
a Request or serde's error string) and either dispatch it or answer with
the Invalid-request Error response. -/
def handleLine (parse : String → Except String Request)
    (cfg : Config) (pOk : Bool) (now : Nat) (s : QueueState)
    (line : String) : Response × QueueState :=
  match parse line with
  | .ok req => process_request cfg pOk now req s
  | .error e => (.errorResp "ERROR" ("Invalid request: " ++ e), s)

/-- handle_connection (ipc.rs): process the received lines in order, each
producing exactly one written response; the connection stays open between
lines. -/
def handle_connection (parse : String → Except String Request)
    (cfg : Config) (pOk : Bool) (now : Nat) (s : QueueState) :
    List String → List Response × QueueState
  | [] => ([], s)
  | line :: rest =>
      let r1 := handleLine parse cfg pOk now s line
      let r2 := handle_connection parse cfg pOk now r1.2 rest
      (r1.1 :: r2.1, r2.2)

end Ipc

/-!  Helper lemmas about findPos, List.set and List.getD. -/

theorem findPos_some_lt {α : Type} {p : α → Bool} {l : List α} {i : Nat}
    (h : findPos p l = some i) : i < l.length := by
  induction l generalizing i with
  | nil => simp [findPos] at h
  | cons a l ih =>
      simp only [findPos] at h
      by_cases hpa : p a
      · rw [if_pos hpa] at h
        cases h
        simp
      · rw [if_neg hpa] at h
        obtain ⟨j, hj, hji⟩ := Option.map_eq_some'.mp h
        have := ih hj
        simp only [List.length_cons]
        omega

theorem getD_eq_getElem {α : Type} {l : List α} {i : Nat} (d : α)
    (h : i < l.length) : l.getD i d = l[i] := by
  induction l generalizing i with
  | nil => simp at h
  | cons a l ih =>
      cases i with
      | zero => rfl
      | succ n =>
          show l.getD n d = _
          rw [List.getElem_cons_succ]
          exact ih (by simpa using h)

theorem findPos_some_getD {α : Type} {p : α → Bool} {l : List α} {i : Nat}
    (d : α) (h : findPos p l = some i) : p (l.getD i d) = true := by
  induction l generalizing i with
  | nil => simp [findPos] at h
  | cons a l ih =>
      simp only [findPos] at h
      by_cases hpa : p a
      · rw [if_pos hpa] at h
        cases h
        exact hpa
      · rw [if_neg hpa] at h
        obtain ⟨j, hj, hji⟩ := Option.map_eq_some'.mp h
        cases hji
        exact ih hj

theorem findPos_none_all {α : Type} {p : α → Bool} {l : List α}
    (h : findPos p l = none) : ∀ a ∈ l, p a = false := by
  induction l with
  | nil => intro a ha; cases ha
  | cons b l ih =>
      simp only [findPos] at h
      by_cases hpb : p b
      · rw [if_pos hpb] at h; cases h
      · rw [if_neg hpb] at h
        intro a ha
        rcases List.mem_cons.mp ha with rfl | ha
        · exact Bool.eq_false_iff.mpr hpb
        · exact ih (Option.map_eq_none'.mp h) a ha

theorem findPos_set_self {α : Type} {p : α → Bool} {l : List α} {i : Nat}
    (a : α) (h : findPos p l = some i) (ha : p a = true) :
    findPos p (l.set i a) = some i := by
  induction l generalizing i with
  | nil => simp [findPos] at h
  | cons b l ih =>
      simp only [findPos] at h
      by_cases hpb : p b
      · rw [if_pos hpb] at h
        cases h
        simp [findPos, ha]
      · rw [if_neg hpb] at h
        obtain ⟨j, hj, hji⟩ := Option.map_eq_some'.mp h
        cases hji
        simp only [List.set_cons_succ, findPos, if_neg hpb, ih hj,
          Option.map_some']

theorem getD_set_self {α : Type} {l : List α} {i : Nat} (a d : α)
    (h : i < l.length) : (l.set i a).getD i d = a := by
  induction l generalizing i with
  | nil => simp at h
  | cons b l ih =>
      cases i with
      | zero => rfl
      | succ n =>
          show (l.set n a).getD n d = a
          exact ih (by simpa using h)

theorem mem_getD {α : Type} {l : List α} {i : Nat} (d : α)
    (h : i < l.length) : l.getD i d ∈ l := by
  rw [getD_eq_getElem d h]
  exact List.getElem_mem h

/-!  Shared concrete states used by witnesses and counterexamples, built
by running the queue operations from the empty state. -/

/-- Default configuration of the spec's scenarios. -/
def cfgA : Config := ⟨10, 3⟩

/-- Empty initial queue state. -/
def qs0 : QueueState := ⟨[], false, 0⟩

/-- Queue state after: enqueue A, claim A, record a conflict on foo.txt.
The single entry has attempts = 1 and status Conflict. -/
def qsConflictA : QueueState :=
  (MergeQueue.recordOutcome true
    (MergeQueue.claimNext true
      (MergeQueue.enqueue cfgA true qs0 "A" "s1" "b" "w" "main" 0).2).2
    0 (.ok (.conflict ["foo.txt"]))).2

/-- Queue state after: enqueue A, claim A, record a successful merge.
The single entry has attempts = 1 and status Merged. -/
def qsMergedA : QueueState :=
  (MergeQueue.recordOutcome true
    (MergeQueue.claimNext true
      (MergeQueue.enqueue cfgA true qs0 "A" "s1" "b" "w" "main" 0).2).2
    0 (.ok (.success 42))).2

/-!  C9. -/

/-- C9: when the queue is below capacity and no Pending entry blocks the
agent, an accepted enqueue returns the prior length k as the zero-based
position, and a status snapshot taken immediately after reports
queue_length = k + 1. -/
theorem c9_enqueue_position (cfg : Config) (s : QueueState)
    (aid sid br wt tb : String) (now : Nat)
    (hlen : s.queue.length < cfg.max_queue_size)
    (hdup : s.queue.any (MergeQueue.isPendingDup aid) = false) :
    (MergeQueue.enqueue cfg true s aid sid br wt tb now).1
      = .ok s.queue.length ∧
    (MergeQueue.status
        (MergeQueue.enqueue cfg true s aid sid br wt tb now).2).length
      = s.queue.length + 1 := by
  have hnle : ¬ cfg.max_queue_size ≤ s.queue.length := by omega
  simp [MergeQueue.enqueue, MergeQueue.status, hnle, hdup]

/-- C9 witness: a concrete accepted enqueue on the empty queue returns
position 0 and the status right after reports length 1. -/
theorem c9_enqueue_position_witness :
    (MergeQueue.enqueue cfgA true qs0 "A" "s1" "b" "w" "main" 0).1
      = .ok qs0.queue.length ∧
    (MergeQueue.status
        (MergeQueue.enqueue cfgA true qs0 "A" "s1" "b" "w" "main" 0).2).length
      = qs0.queue.length + 1 :=
  c9_enqueue_position cfgA qs0 "A" "s1" "b" "w" "main" 0 (by decide)
    (by decide)

/-!  Concrete entries and system states used in reachability traces. -/

/-- Entry for agent A as freshly enqueued. -/
def entA0p : QueueEntry :=
  ⟨0, "A", "s1", "b", "w", "main", 0, 0, .pending, none, []⟩

/-- Entry for agent A after one claim. -/
def entA0proc : QueueEntry :=
  ⟨0, "A", "s1", "b", "w", "main", 1, 0, .processing, none, []⟩

/-- Second entry for agent A, enqueued while the first is Processing. -/
def entA1p : QueueEntry :=
  ⟨1, "A", "s2", "b2", "w2", "main", 0, 1, .pending, none, []⟩

/-- Entry for agent B as freshly enqueued. -/
def entB1p : QueueEntry :=
  ⟨1, "B", "s2", "b2", "w2", "main", 0, 0, .pending, none, []⟩

/-- Entry for agent B after one claim. -/
def entB1proc : QueueEntry :=
  ⟨1, "B", "s2", "b2", "w2", "main", 1, 0, .processing, none, []⟩

/-- System state after enqueueing A. -/
def sEnqA : SysState := ⟨⟨[entA0p], false, 1⟩, .check⟩

/-- System state after the processor passes the shutdown check. -/
def sWaitA : SysState := ⟨⟨[entA0p], false, 1⟩, .wait⟩

/-- System state after the processor claims A. -/
def sProcA : SysState := ⟨⟨[entA0proc], false, 1⟩, .merging 0⟩

/-- System state after a second enqueue of agent A succeeds while the
first entry is Processing. -/
def sDupA : SysState := ⟨⟨[entA0proc, entA1p], false, 2⟩, .merging 0⟩

/-!  C1. -/

/-- Invariant asserted by C1: no two entries share an agent_id while both
are in status Pending or Processing. -/
def NoTwoActiveShareAgent (q : List QueueEntry) : Prop :=
  q.Pairwise (fun a b =>
    (a.status = EntryStatus.pending ∨ a.status = EntryStatus.processing) →
    (b.status = EntryStatus.pending ∨ b.status = EntryStatus.processing) →
    a.agent_id ≠ b.agent_id)

/-- C1 counterexample: enqueue A, let the processor claim it (Processing),
then enqueue A again; the duplicate check only looks at Pending entries,
so the queue reaches a state with two entries for agent A, one Processing
and one Pending. -/
theorem c1_counterexample :
    ReachableAny cfgA sDupA ∧ ¬ NoTwoActiveShareAgent sDupA.qs.queue := by
  constructor
  · have h1 : Step cfgA (fun _ => True) initState sEnqA :=
      .enqueueStep true "A" "s1" "b" "w" "main" 0 _ _ (by decide)
    have h2 : Step cfgA (fun _ => True) sEnqA sWaitA :=
      .checkContStep _ _ rfl rfl (by decide)
    have h3 : Step cfgA (fun _ => True) sWaitA sProcA :=
      .claimStep true trivial _ _ rfl (by decide)
    have h4 : Step cfgA (fun _ => True) sProcA sDupA :=
      .enqueueStep true "A" "s2" "b2" "w2" "main" 1 _ _ (by decide)
    exact Relation.ReflTransGen.head h1 (Relation.ReflTransGen.head h2
      (Relation.ReflTransGen.head h3 (Relation.ReflTransGen.single h4)))
  · intro hcontra
    have hR := (List.pairwise_cons.mp hcontra).1 entA1p (by simp)
    exact hR (Or.inr rfl) (Or.inl rfl) rfl

/-!  C2. -/

/-- C2 counterexample: a failing persistence write inside retry surfaces
the error to the caller, but the in-memory queue is NOT reverted to its
pre-transition state: the entry has already been re-Pendinged and its
conflict data cleared. -/
theorem c2_counterexample :
    (MergeQueue.retry cfgA false qsConflictA "A").1
      = .error .persistError ∧
    (MergeQueue.retry cfgA false qsConflictA "A").2 ≠ qsConflictA := by
  decide

/-- C2 (amended): a failing persistence write surfaces an error to the
caller in every transition, but only enqueue leaves the in-memory queue in
its pre-transition state; dequeue has already removed the entry, retry has
already re-Pendinged and cleared it, the claim step has already flipped it
to Processing with attempts incremented, and outcome recording has already
applied the outcome mapping. -/
theorem c2_amended_persist_failure (cfg : Config) (s : QueueState)
    (aid sid br wt tb : String) (now : Nat) (entryId : Nat)
    (result : Except String MergeResult) :
    ((MergeQueue.enqueue cfg false s aid sid br wt tb now).2 = s) ∧
    (∀ pos,
      findPos (fun e => decide (e.agent_id = aid)) s.queue = some pos →
      (MergeQueue.dequeue false s aid).1 = .error .persistError ∧
      (MergeQueue.dequeue false s aid).2.queue = s.queue.eraseIdx pos) ∧
    (∀ pos,
      findPos (fun e => decide (e.agent_id = aid)) s.queue = some pos →
      (s.queue.getD pos defaultEntry).attempts < cfg.max_retries →
      (MergeQueue.retry cfg false s aid).1 = .error .persistError ∧
      (MergeQueue.retry cfg false s aid).2.queue
        = s.queue.set pos
            (MergeQueue.repend (s.queue.getD pos defaultEntry))) ∧
    (∀ pos,
      findPos (fun e => decide (e.status = EntryStatus.pending)) s.queue
        = some pos →
      (MergeQueue.claimNext false s).1 = .error .persistError ∧
      (MergeQueue.claimNext false s).2.queue
        = s.queue.set pos
            (MergeQueue.claimed (s.queue.getD pos defaultEntry))) ∧
    (∀ pos,
      findPos (fun e => decide (e.id = entryId)) s.queue = some pos →
      (MergeQueue.recordOutcome false s entryId result).1
        = .error .persistError ∧
      (MergeQueue.recordOutcome false s entryId result).2.queue
        = s.queue.set pos
            (MergeQueue.applyOutcome result
              (s.queue.getD pos defaultEntry))) := by
  refine ⟨?_, ?_, ?_, ?_, ?_⟩
  · simp only [MergeQueue.enqueue]
    split_ifs <;> first | rfl | exact absurd (by assumption) (by simp)
  · intro pos h
    simp only [MergeQueue.dequeue, h]
    exact ⟨rfl, rfl⟩
  · intro pos h hatt
    have hnle : ¬ cfg.max_retries
        ≤ (s.queue.getD pos defaultEntry).attempts := by omega
    simp only [MergeQueue.retry, h, if_neg hnle]
    exact ⟨rfl, rfl⟩
  · intro pos h
    simp only [MergeQueue.claimNext, h]
    exact ⟨rfl, rfl⟩
  · intro pos h
    simp only [MergeQueue.recordOutcome, h]
    exact ⟨rfl, rfl⟩

/-- C2 witness: the retry clause applied to the concrete Conflict entry
with a failing persistence write. -/
theorem c2_amended_persist_failure_witness :
    (MergeQueue.retry cfgA false qsConflictA "A").1
      = .error .persistError ∧
    (MergeQueue.retry cfgA false qsConflictA "A").2.queue
      = qsConflictA.queue.set 0
          (MergeQueue.repend (qsConflictA.queue.getD 0 defaultEntry)) :=
  (c2_amended_persist_failure cfgA qsConflictA "A" "s1" "b" "w" "main" 0 0
    (.ok (.success 0))).2.2.1 0 (by decide) (by decide)

/-!  C1 (amended part). -/

/-- C1 (amended): enqueue fails with AgentAlreadyQueued exactly when the
queue is below capacity and some existing entry with this agent_id has
status Pending; an entry in status Processing does not block a duplicate,
so the claimed Pending-or-Processing uniqueness is not what the code
enforces. -/
theorem c1_amended_enqueue_duplicate_gate (cfg : Config) (pOk : Bool)
    (s : QueueState) (aid sid br wt tb : String) (now : Nat) :
    (MergeQueue.enqueue cfg pOk s aid sid br wt tb now).1
      = .error (.agentAlreadyQueued aid) ↔
    s.queue.length < cfg.max_queue_size ∧
      ∃ e ∈ s.queue, e.agent_id = aid ∧ e.status = EntryStatus.pending := by
  by_cases hfull : cfg.max_queue_size ≤ s.queue.length
  · simp only [MergeQueue.enqueue, if_pos hfull]
    constructor
    · intro h; simp at h
    · rintro ⟨h1, -⟩; omega
  · by_cases hdup : s.queue.any (MergeQueue.isPendingDup aid) = true
    · simp only [MergeQueue.enqueue, if_neg hfull, if_pos hdup]
      constructor
      · intro _
        refine ⟨by omega, ?_⟩
        obtain ⟨e, he, hpe⟩ := List.any_eq_true.mp hdup
        obtain ⟨hag, hst⟩ := of_decide_eq_true hpe
        exact ⟨e, he, hag, hst⟩
      · intro _; trivial
    · constructor
      · intro h
        simp only [MergeQueue.enqueue, if_neg hfull, if_neg hdup] at h
        cases pOk <;> simp at h
      · rintro ⟨-, e, he, hag, hst⟩
        exact absurd (List.any_eq_true.mpr ⟨e, he, by
          simp [MergeQueue.isPendingDup, hag, hst]⟩) hdup

/-!  C5. -/

/-- C5 counterexample: with max_retries = 1, after enqueue, one claim
(attempts = 1) and a recorded Conflict, already the FIRST Retry call
returns MaxRetriesExceeded instead of succeeding, because retry gates on
attempts ≥ max_retries and attempts is already 1. -/
theorem c5_counterexample :
    (qsConflictA.queue.getD 0 defaultEntry).attempts = 1 ∧
    (qsConflictA.queue.getD 0 defaultEntry).status = EntryStatus.conflict ∧
    (MergeQueue.retry ⟨10, 1⟩ true qsConflictA "A").1
      = .error (.maxRetriesExceeded "A") := by decide

/-- C5 (amended): retry returns MaxRetriesExceeded exactly when the first
entry with the given agent_id has attempts ≥ max_retries; so with
max_retries = 1 an entry claimed once is already beyond retry, and a
Retry call succeeds only while attempts < max_retries. -/
theorem c5_amended_retry_gate (cfg : Config) (pOk : Bool) (s : QueueState)
    (aid : String) :
    (MergeQueue.retry cfg pOk s aid).1 = .error (.maxRetriesExceeded aid) ↔
    ∃ pos, findPos (fun e => decide (e.agent_id = aid)) s.queue = some pos ∧
      cfg.max_retries ≤ (s.queue.getD pos defaultEntry).attempts := by
  cases hfp : findPos (fun e => decide (e.agent_id = aid)) s.queue with
  | none =>
      simp only [MergeQueue.retry, hfp]
      constructor
      · intro h; simp at h
      · rintro ⟨pos, hpos, -⟩; cases hpos
  | some pos =>
      by_cases hge : cfg.max_retries ≤ (s.queue.getD pos defaultEntry).attempts
      · simp only [MergeQueue.retry, hfp, if_pos hge]
        exact ⟨fun _ => ⟨pos, rfl, hge⟩, fun _ => trivial⟩
      · constructor
        · intro h
          simp only [MergeQueue.retry, hfp, if_neg hge] at h
          cases pOk with
          | false => simp at h
          | true =>
              cases hfp2 : findPos (fun e => decide (e.agent_id = aid))
                  (s.queue.set pos
                    (MergeQueue.repend (s.queue.getD pos defaultEntry))) with
              | none => rw [hfp2] at h; simp at h
              | some q => rw [hfp2] at h; simp at h
        · rintro ⟨pos2, hpos2, hge2⟩
          cases hpos2
          exact absurd hge2 hge

/-!  C6. -/

/-- C6 counterexample: the entry reaches status Merged (terminal), yet a
Retry call succeeds and re-Pendings it, contradicting the claim that
retry is only valid from Conflict or Failed. -/
theorem c6_counterexample :
    (qsMergedA.queue.getD 0 defaultEntry).status = EntryStatus.merged ∧
    (MergeQueue.retry cfgA true qsMergedA "A").1 = .ok 0 ∧
    ((MergeQueue.retry cfgA true qsMergedA "A").2.queue.getD 0
        defaultEntry).status = EntryStatus.pending := by decide

/-- C6 (amended): retry re-Pendings the first entry carrying the agent_id
regardless of its current status (Pending, Processing, Merged, Conflict,
Failed or Cancelled alike); the only gate is attempts < max_retries. -/
theorem c6_amended_retry_any_status (cfg : Config) (s : QueueState)
    (aid : String) (pos : Nat)
    (h : findPos (fun e => decide (e.agent_id = aid)) s.queue = some pos)
    (hatt : (s.queue.getD pos defaultEntry).attempts < cfg.max_retries) :
    (MergeQueue.retry cfg true s aid).1 = .ok pos ∧
    ((MergeQueue.retry cfg true s aid).2.queue.getD pos defaultEntry).status
      = EntryStatus.pending := by
  have hlt := findPos_some_lt h
  have hag : (s.queue.getD pos defaultEntry).agent_id = aid :=
    of_decide_eq_true (findPos_some_getD defaultEntry h)
  have hnle : ¬ cfg.max_retries ≤ (s.queue.getD pos defaultEntry).attempts :=
    by omega
  have hset : findPos (fun e => decide (e.agent_id = aid))
      (s.queue.set pos (MergeQueue.repend (s.queue.getD pos defaultEntry)))
        = some pos :=
    findPos_set_self _ h (by rw [decide_eq_true_eq]; exact hag)
  have hr : MergeQueue.retry cfg true s aid
      = (.ok pos,
         { s with queue := s.queue.set pos (MergeQueue.repend (s.queue.getD pos defaultEntry)) }) := by
    simp only [MergeQueue.retry, h, if_neg hnle]
    rw [hset]
    rfl
  rw [hr]
  exact ⟨rfl, by rw [getD_set_self _ _ hlt]; rfl⟩

/-- C6 witness: a concrete Merged entry with attempts below max_retries is
re-Pendinged by retry. -/
theorem c6_amended_retry_any_status_witness :
    (MergeQueue.retry cfgA true qsMergedA "A").1 = .ok 0 ∧
    ((MergeQueue.retry cfgA true qsMergedA "A").2.queue.getD 0
        defaultEntry).status = EntryStatus.pending :=
  c6_amended_retry_any_status cfgA qsMergedA "A" 0 (by decide) (by decide)

/-!  C7. -/

/-- C7: for the entry retry(agent_id) addresses (the first with that
agent_id), when attempts < max_retries the call succeeds: the entry
becomes Pending with conflict_files cleared and last_error cleared,
attempts unchanged, the entry stays at its position, the queue keeps its
length, and that unchanged position is returned. -/
theorem c7_retry_postconditions (cfg : Config) (s : QueueState)
    (aid : String) (pos : Nat)
    (h : findPos (fun e => decide (e.agent_id = aid)) s.queue = some pos)
    (hatt : (s.queue.getD pos defaultEntry).attempts < cfg.max_retries) :
    (MergeQueue.retry cfg true s aid).1 = .ok pos ∧
    (MergeQueue.retry cfg true s aid).2.queue
      = s.queue.set pos
          (MergeQueue.repend (s.queue.getD pos defaultEntry)) ∧
    (MergeQueue.retry cfg true s aid).2.queue.getD pos defaultEntry
      = MergeQueue.repend (s.queue.getD pos defaultEntry) ∧
    (MergeQueue.retry cfg true s aid).2.queue.length = s.queue.length := by
  have hlt := findPos_some_lt h
  have hag : (s.queue.getD pos defaultEntry).agent_id = aid :=
    of_decide_eq_true (findPos_some_getD defaultEntry h)
  have hnle : ¬ cfg.max_retries ≤ (s.queue.getD pos defaultEntry).attempts :=
    by omega
  have hset : findPos (fun e => decide (e.agent_id = aid))
      (s.queue.set pos (MergeQueue.repend (s.queue.getD pos defaultEntry)))
        = some pos :=
    findPos_set_self _ h (by rw [decide_eq_true_eq]; exact hag)
  have hr : MergeQueue.retry cfg true s aid
      = (.ok pos,
         { s with queue := s.queue.set pos (MergeQueue.repend (s.queue.getD pos defaultEntry)) }) := by
    simp only [MergeQueue.retry, h, if_neg hnle]
    rw [hset]
    rfl
  rw [hr]
  refine ⟨rfl, rfl, ?_, ?_⟩
  · rw [getD_set_self _ _ hlt]
  · simp

/-- C7 witness: retry on the concrete Conflict entry (attempts = 1 with
max_retries = 3) succeeds, clears the conflict data and keeps position
0. -/
theorem c7_retry_postconditions_witness :
    (MergeQueue.retry cfgA true qsConflictA "A").1 = .ok 0 ∧
    (MergeQueue.retry cfgA true qsConflictA "A").2.queue
      = qsConflictA.queue.set 0
          (MergeQueue.repend (qsConflictA.queue.getD 0 defaultEntry)) ∧
    (MergeQueue.retry cfgA true qsConflictA "A").2.queue.getD 0 defaultEntry
      = MergeQueue.repend (qsConflictA.queue.getD 0 defaultEntry) ∧
    (MergeQueue.retry cfgA true qsConflictA "A").2.queue.length
      = qsConflictA.queue.length :=
  c7_retry_postconditions cfgA qsConflictA "A" 0 (by decide) (by decide)

/-!  Per-operation preservation lemmas used by the temporal proofs. -/

theorem enqueue_shutdown (cfg : Config) (pOk : Bool) (s : QueueState)
    (aid sid br wt tb : String) (now : Nat) :
    (MergeQueue.enqueue cfg pOk s aid sid br wt tb now).2.shutdown
      = s.shutdown := by
  simp only [MergeQueue.enqueue]
  split_ifs <;> rfl

theorem enqueue_processing_mem (cfg : Config) (pOk : Bool) (s : QueueState)
    (aid sid br wt tb : String) (now : Nat) :
    ∀ e ∈ (MergeQueue.enqueue cfg pOk s aid sid br wt tb now).2.queue,
      e.status = EntryStatus.processing → e ∈ s.queue := by
  simp only [MergeQueue.enqueue]
  split_ifs <;> intro e he hst
  · exact he
  · exact he
  · rcases List.mem_append.mp he with h | h
    · exact h
    · simp only [List.mem_singleton] at h
      subst h
      simp at hst
  · exact he

theorem dequeue_shutdown (pOk : Bool) (s : QueueState) (aid : String) :
    (MergeQueue.dequeue pOk s aid).2.shutdown = s.shutdown := by
  cases hfp : findPos (fun e => decide (e.agent_id = aid)) s.queue with
  | none => simp [MergeQueue.dequeue, hfp]
  | some pos =>
      simp only [MergeQueue.dequeue, hfp]
      split_ifs <;> rfl

theorem dequeue_mem (pOk : Bool) (s : QueueState) (aid : String) :
    ∀ e ∈ (MergeQueue.dequeue pOk s aid).2.queue, e ∈ s.queue := by
  cases hfp : findPos (fun e => decide (e.agent_id = aid)) s.queue with
  | none => simp [MergeQueue.dequeue, hfp]
  | some pos =>
      simp only [MergeQueue.dequeue, hfp]
      split_ifs <;> intro e he <;> exact List.mem_of_mem_eraseIdx he

theorem retry_shutdown (cfg : Config) (pOk : Bool) (s : QueueState)
    (aid : String) :
    (MergeQueue.retry cfg pOk s aid).2.shutdown = s.shutdown := by
  cases hfp : findPos (fun e => decide (e.agent_id = aid)) s.queue with
  | none => simp [MergeQueue.retry, hfp]
  | some pos =>
      simp only [MergeQueue.retry, hfp]
      split_ifs <;> rfl

theorem retry_processing_mem (cfg : Config) (pOk : Bool) (s : QueueState)
    (aid : String) :
    ∀ e ∈ (MergeQueue.retry cfg pOk s aid).2.queue,
      e.status = EntryStatus.processing → e ∈ s.queue := by
  cases hfp : findPos (fun e => decide (e.agent_id = aid)) s.queue with
  | none =>
      simp only [MergeQueue.retry, hfp]
      intro e he _
      exact he
  | some pos =>
      simp only [MergeQueue.retry, hfp]
      split_ifs <;> intro e he hst
      · exact he
      · rcases List.mem_or_eq_of_mem_set he with h | h
        · exact h
        · subst h; simp [MergeQueue.repend] at hst
      · rcases List.mem_or_eq_of_mem_set he with h | h
        · exact h
        · subst h; simp [MergeQueue.repend] at hst

theorem claimNext_shutdown (pOk : Bool) (s : QueueState) :
    (MergeQueue.claimNext pOk s).2.shutdown = s.shutdown := by
  cases hfp : findPos (fun e => decide (e.status = EntryStatus.pending))
      s.queue with
  | none => simp [MergeQueue.claimNext, hfp]
  | some pos =>
      simp only [MergeQueue.claimNext, hfp]
      split_ifs <;> rfl

theorem recordOutcome_shutdown (pOk : Bool) (s : QueueState) (entryId : Nat)
    (result : Except String MergeResult) :
    (MergeQueue.recordOutcome pOk s entryId result).2.shutdown
      = s.shutdown := by
  cases hfp : findPos (fun e => decide (e.id = entryId)) s.queue with
  | none => simp [MergeQueue.recordOutcome, hfp]
  | some pos =>
      simp only [MergeQueue.recordOutcome, hfp]
      split_ifs <;> rfl

/-!  C3. -/

/-- System state after the shutdown flag is set while the processor has
already passed the shutdown check. -/
def sShutWaitA : SysState := ⟨⟨[entA0p], true, 1⟩, .wait⟩

/-- System state after the processor claims A despite the shutdown flag. -/
def sShutProcA : SysState := ⟨⟨[entA0proc], true, 1⟩, .merging 0⟩

/-- C3 counterexample: the state with the shutdown flag set, the processor
already past its check, and entry A still Pending is reachable; one more
step then flips A from Pending to Processing, i.e. the processor claims an
entry after the shutdown flag was set. -/
theorem c3_counterexample :
    ReachableAny cfgA sShutWaitA ∧ sShutWaitA.qs.shutdown = true ∧
    Step cfgA (fun _ => True) sShutWaitA sShutProcA ∧
    (sShutWaitA.qs.queue.getD 0 defaultEntry).status
      = EntryStatus.pending ∧
    (sShutProcA.qs.queue.getD 0 defaultEntry).status
      = EntryStatus.processing ∧
    (sShutProcA.qs.queue.getD 0 defaultEntry).id
      = (sShutWaitA.qs.queue.getD 0 defaultEntry).id := by
  refine ⟨?_, rfl, ?_, rfl, rfl, rfl⟩
  · have h1 : Step cfgA (fun _ => True) initState sEnqA :=
      .enqueueStep true "A" "s1" "b" "w" "main" 0 _ _ (by decide)
    have h2 : Step cfgA (fun _ => True) sEnqA sWaitA :=
      .checkContStep _ _ rfl rfl (by decide)
    have h3 : Step cfgA (fun _ => True) sWaitA sShutWaitA :=
      .shutdownStep _ _ (by decide)
    exact Relation.ReflTransGen.head h1 (Relation.ReflTransGen.head h2
      (Relation.ReflTransGen.single h3))
  · exact .claimStep true trivial _ _ rfl (by decide)

/-- Empty system state with the shutdown flag set and the processor at its
check. -/
def sShut0 : SysState := ⟨⟨[], true, 0⟩, .check⟩

/-- C3 (amended): enqueue never consults the shutdown flag, so enqueue
calls continue to behave identically after shutdown; and once the
processor observes the flag at the top of its loop (or has already
exited), it never claims again: no entry becomes Processing in any later
step that was not Processing already.  Only the single loop iteration
already past the check when the flag is set may still claim one entry. -/
theorem c3_amended_shutdown_drain (cfg : Config) :
    (∀ (pOk : Bool) (s : QueueState) (b : Bool)
       (aid sid br wt tb : String) (now : Nat),
      (MergeQueue.enqueue cfg pOk { s with shutdown := b }
          aid sid br wt tb now).1
        = (MergeQueue.enqueue cfg pOk s aid sid br wt tb now).1) ∧
    (∀ (s s' : SysState), s.qs.shutdown = true →
      (s.pc = ProcPc.check ∨ s.pc = ProcPc.done) →
      Relation.ReflTransGen (Step cfg (fun _ => True)) s s' →
      ∀ e ∈ s'.qs.queue, e.status = EntryStatus.processing →
        ∃ e0 ∈ s.qs.queue, e0.id = e.id ∧
          e0.status = EntryStatus.processing) := by
  constructor
  · intro pOk s b aid sid br wt tb now
    simp only [MergeQueue.enqueue]
    split_ifs <;> rfl
  · intro s s' hsd hpc hrtg
    suffices h : s'.qs.shutdown = true ∧
        (s'.pc = ProcPc.check ∨ s'.pc = ProcPc.done) ∧
        (∀ e ∈ s'.qs.queue, e.status = EntryStatus.processing →
          ∃ e0 ∈ s.qs.queue, e0.id = e.id ∧
            e0.status = EntryStatus.processing) by
      exact h.2.2
    induction hrtg with
    | refl => exact ⟨hsd, hpc, fun e he hst => ⟨e, he, rfl, hst⟩⟩
    | tail hab hbc ih =>
        obtain ⟨ihsd, ihpc, ihmem⟩ := ih
        cases hbc with
        | enqueueStep pOk aid sid br wt tb now _ _ h =>
            subst h
            refine ⟨by rw [enqueue_shutdown]; exact ihsd, ihpc, ?_⟩
            intro e he hst
            exact ihmem e
              (enqueue_processing_mem cfg pOk _ aid sid br wt tb now e he hst)
              hst
        | dequeueStep pOk aid _ _ h =>
            subst h
            refine ⟨by rw [dequeue_shutdown]; exact ihsd, ihpc, ?_⟩
            intro e he hst
            exact ihmem e (dequeue_mem pOk _ aid e he) hst
        | retryStep pOk aid _ _ h =>
            subst h
            refine ⟨by rw [retry_shutdown]; exact ihsd, ihpc, ?_⟩
            intro e he hst
            exact ihmem e (retry_processing_mem cfg pOk _ aid e he hst) hst
        | shutdownStep _ _ h =>
            subst h
            exact ⟨rfl, ihpc, ihmem⟩
        | checkContStep _ _ hpc2 hsd2 h =>
            rw [ihsd] at hsd2
            cases hsd2
        | checkExitStep _ _ hpc2 hsd2 h =>
            subst h
            exact ⟨ihsd, Or.inr rfl, ihmem⟩
        | claimStep pOk hok _ _ hpc2 h =>
            rcases ihpc with h9 | h9 <;> rw [h9] at hpc2 <;> cases hpc2
        | recordStep pOk i result _ _ hpc2 h =>
            rcases ihpc with h9 | h9 <;> rw [h9] at hpc2 <;> cases hpc2

/-- C3 witness: the enqueue clause at a concrete state, and the no-claim
clause instantiated with the shut-down empty state and the empty run. -/
theorem c3_amended_shutdown_drain_witness :
    ((MergeQueue.enqueue cfgA true { qs0 with shutdown := true }
        "A" "s1" "b" "w" "main" 0).1
      = (MergeQueue.enqueue cfgA true qs0 "A" "s1" "b" "w" "main" 0).1) ∧
    (∀ e ∈ sShut0.qs.queue, e.status = EntryStatus.processing →
      ∃ e0 ∈ sShut0.qs.queue, e0.id = e.id ∧
        e0.status = EntryStatus.processing) :=
  ⟨(c3_amended_shutdown_drain cfgA).1 true qs0 true "A" "s1" "b" "w" "main" 0,
   (c3_amended_shutdown_drain cfgA).2 sShut0 sShut0 rfl (Or.inl rfl)
     Relation.ReflTransGen.refl⟩

/-!  C4: invariant machinery. -/

/-- All entry ids in the queue are distinct (they come from Uuid::new_v4,
modelled by the fresh counter). -/
def IdsNodup (q : List QueueEntry) : Prop :=
  (q.map (fun e => e.id)).Nodup

/-- Processor-position invariant: while the processor is merging entry i,
every Processing entry carries id i; in every other processor position no
entry is Processing at all. -/
def ProcInv (pc : ProcPc) (q : List QueueEntry) : Prop :=
  match pc with
  | .merging i => ∀ e ∈ q, e.status = EntryStatus.processing → e.id = i
  | _ => ∀ e ∈ q, e.status ≠ EntryStatus.processing

/-- Inductive system invariant: ids are bounded by the fresh counter,
pairwise distinct, and the processing entries are governed by the
processor position. -/
def SysInv (s : SysState) : Prop :=
  (∀ e ∈ s.qs.queue, e.id < s.qs.nextId) ∧ IdsNodup s.qs.queue ∧
  ProcInv s.pc s.qs.queue

theorem procInv_of_mem (pc : ProcPc) {q q' : List QueueEntry}
    (hsub : ∀ e ∈ q', e.status = EntryStatus.processing → e ∈ q)
    (h : ProcInv pc q) : ProcInv pc q' := by
  cases pc <;> exact fun e he hst => h e (hsub e he hst) hst

theorem applyOutcome_status (result : Except String MergeResult)
    (e : QueueEntry) :
    (MergeQueue.applyOutcome result e).status ≠ EntryStatus.processing := by
  cases result with
  | ok m => cases m <;> simp [MergeQueue.applyOutcome]
  | error err => simp [MergeQueue.applyOutcome]

theorem applyOutcome_id (result : Except String MergeResult)
    (e : QueueEntry) :
    (MergeQueue.applyOutcome result e).id = e.id := by
  cases result with
  | ok m => cases m <;> rfl
  | error err => rfl

theorem map_id_set (q : List QueueEntry) (pos : Nat) (a : QueueEntry)
    (hid : a.id = (q.getD pos defaultEntry).id) :
    (q.set pos a).map (fun e => e.id) = q.map (fun e => e.id) := by
  induction q generalizing pos with
  | nil => simp
  | cons b t ih =>
      cases pos with
      | zero =>
          simp only [List.getD_cons_zero] at hid
          simp only [List.set_cons_zero, List.map_cons]
          rw [hid]
      | succ n =>
          simp only [List.set_cons_succ, List.map_cons]
          rw [ih n hid]

theorem mem_set_eq_of_id {q : List QueueEntry} {pos i : Nat}
    {a e : QueueEntry} (hnd : IdsNodup q) (hpos : pos < q.length)
    (hid : (q.getD pos defaultEntry).id = i) (hei : e.id = i)
    (he : e ∈ q.set pos a) : e = a := by
  obtain ⟨j, hj, hget⟩ := List.mem_iff_getElem.mp he
  have hjlen : j < q.length := by simpa using hj
  by_cases hjp : j = pos
  · subst hjp
    rw [List.getElem_set_self] at hget
    exact hget.symm
  · exfalso
    rw [List.getElem_set_ne (fun hh => hjp hh.symm)] at hget
    have h1 : q[j].id = i := by rw [hget]; exact hei
    have h2 : q[pos].id = i := by
      rw [← getD_eq_getElem defaultEntry hpos]; exact hid
    have hjm : j < (q.map (fun e => e.id)).length := by simpa using hjlen
    have hpm : pos < (q.map (fun e => e.id)).length := by simpa using hpos
    have hmap : (q.map (fun e => e.id))[j] = (q.map (fun e => e.id))[pos] := by
      simp only [List.getElem_map]
      rw [h1, h2]
    exact hjp ((List.Nodup.getElem_inj_iff hnd).mp hmap)

theorem processingCount_eq_zero {q : List QueueEntry}
    (h : ∀ e ∈ q, e.status ≠ EntryStatus.processing) :
    processingCount q = 0 := by
  unfold processingCount
  rw [List.filter_eq_nil_iff.mpr]
  · rfl
  · intro a ha
    simp only [decide_eq_true_eq]
    exact h a ha

theorem processingCount_le_one_of_all_id {q : List QueueEntry} {i : Nat}
    (hnd : IdsNodup q)
    (hall : ∀ e ∈ q, e.status = EntryStatus.processing → e.id = i) :
    processingCount q ≤ 1 := by
  induction q with
  | nil => simp [processingCount]
  | cons a t ih =>
      have hnotmem : a.id ∉ t.map (fun e => e.id) :=
        (List.nodup_cons.mp hnd).1
      have hnd' : IdsNodup t := (List.nodup_cons.mp hnd).2
      by_cases ha : a.status = EntryStatus.processing
      · have hzero : processingCount t = 0 := by
          apply processingCount_eq_zero
          intro e he hst
          have h1 : e.id = i := hall e (List.mem_cons_of_mem _ he) hst
          have h2 : a.id = i := hall a (List.mem_cons_self a t) ha
          apply hnotmem
          have : e.id ∈ t.map (fun x => x.id) :=
            List.mem_map_of_mem _ he
          rw [h2, ← h1]
          exact this
        unfold processingCount at hzero ⊢
        rw [List.filter_cons_of_pos (by simp [ha])]
        simp [hzero]
      · unfold processingCount at ih ⊢
        rw [List.filter_cons_of_neg (by simp [ha])]
        exact ih hnd' (fun e he => hall e (List.mem_cons_of_mem _ he))

/-!  Case-analysis lemmas for the operations, used in the invariant
preservation proof. -/

theorem enqueue_cases (cfg : Config) (pOk : Bool) (s : QueueState)
    (aid sid br wt tb : String) (now : Nat) :
    (MergeQueue.enqueue cfg pOk s aid sid br wt tb now).2 = s ∨
    ((MergeQueue.enqueue cfg pOk s aid sid br wt tb now).2.queue
        = s.queue ++
          [{ id := s.nextId, agent_id := aid, session_id := sid,
             branch := br, worktree := wt, target_branch := tb,
             attempts := 0, queued_at := now, status := .pending,
             last_error := none, conflict_files := [] }] ∧
     (MergeQueue.enqueue cfg pOk s aid sid br wt tb now).2.nextId
        = s.nextId + 1) := by
  simp only [MergeQueue.enqueue]
  split_ifs
  · exact Or.inl rfl
  · exact Or.inl rfl
  · exact Or.inr ⟨rfl, rfl⟩
  · exact Or.inl rfl

theorem dequeue_cases (pOk : Bool) (s : QueueState) (aid : String) :
    (MergeQueue.dequeue pOk s aid).2 = s ∨
    ∃ pos, (MergeQueue.dequeue pOk s aid).2.queue = s.queue.eraseIdx pos ∧
      (MergeQueue.dequeue pOk s aid).2.nextId = s.nextId := by
  cases hfp : findPos (fun e => decide (e.agent_id = aid)) s.queue with
  | none => exact Or.inl (by simp [MergeQueue.dequeue, hfp])
  | some pos =>
      simp only [MergeQueue.dequeue, hfp]
      split_ifs <;> exact Or.inr ⟨pos, rfl, rfl⟩

theorem retry_cases (cfg : Config) (pOk : Bool) (s : QueueState)
    (aid : String) :
    (MergeQueue.retry cfg pOk s aid).2 = s ∨
    ∃ pos, pos < s.queue.length ∧
      (MergeQueue.retry cfg pOk s aid).2.queue
        = s.queue.set pos
            (MergeQueue.repend (s.queue.getD pos defaultEntry)) ∧
      (MergeQueue.retry cfg pOk s aid).2.nextId = s.nextId := by
  cases hfp : findPos (fun e => decide (e.agent_id = aid)) s.queue with
  | none => exact Or.inl (by simp [MergeQueue.retry, hfp])
  | some pos =>
      simp only [MergeQueue.retry, hfp]
      split_ifs with h1 h2
      · exact Or.inl rfl
      · exact Or.inr ⟨pos, findPos_some_lt hfp, rfl, rfl⟩
      · exact Or.inr ⟨pos, findPos_some_lt hfp, rfl, rfl⟩

theorem claimNext_true_cases (s : QueueState) :
    (findPos (fun e => decide (e.status = EntryStatus.pending)) s.queue
        = none ∧
      MergeQueue.claimNext true s = (.ok none, s)) ∨
    (∃ pos,
      findPos (fun e => decide (e.status = EntryStatus.pending)) s.queue
        = some pos ∧ pos < s.queue.length ∧
      MergeQueue.claimNext true s
        = (.ok (some (MergeQueue.claimed (s.queue.getD pos defaultEntry))),
           { s with queue := s.queue.set pos (MergeQueue.claimed (s.queue.getD pos defaultEntry)) })) := by
  cases hfp : findPos (fun e => decide (e.status = EntryStatus.pending))
      s.queue with
  | none => exact Or.inl ⟨rfl, by simp [MergeQueue.claimNext, hfp]⟩
  | some pos =>
      refine Or.inr ⟨pos, rfl, findPos_some_lt hfp, ?_⟩
      simp [MergeQueue.claimNext, hfp]

theorem recordOutcome_cases (pOk : Bool) (s : QueueState) (i : Nat)
    (result : Except String MergeResult) :
    ((MergeQueue.recordOutcome pOk s i result).2 = s ∧
      findPos (fun e => decide (e.id = i)) s.queue = none) ∨
    (∃ pos,
      findPos (fun e => decide (e.id = i)) s.queue = some pos ∧
      pos < s.queue.length ∧
      (MergeQueue.recordOutcome pOk s i result).2.queue
        = s.queue.set pos
            (MergeQueue.applyOutcome result (s.queue.getD pos defaultEntry)) ∧
      (MergeQueue.recordOutcome pOk s i result).2.nextId = s.nextId) := by
  cases hfp : findPos (fun e => decide (e.id = i)) s.queue with
  | none => exact Or.inl ⟨by simp [MergeQueue.recordOutcome, hfp], rfl⟩
  | some pos =>
      refine Or.inr ⟨pos, rfl, findPos_some_lt hfp, ?_, ?_⟩ <;>
        simp only [MergeQueue.recordOutcome, hfp] <;>
        split_ifs <;> rfl

/-- Preservation of the system invariant along every step whose claim
phase persists successfully. -/
theorem sysInv_step {cfg : Config} {a b : SysState}
    (hstep : Step cfg (fun x => x = true) a b) (ha : SysInv a) :
    SysInv b := by
  obtain ⟨hbound, hnd, hproc⟩ := ha
  cases hstep with
  | enqueueStep pOk aid sid br wt tb now _ _ h =>
      subst h
      refine ⟨?_, ?_, procInv_of_mem a.pc
        (enqueue_processing_mem cfg pOk a.qs aid sid br wt tb now) hproc⟩
      · rcases enqueue_cases cfg pOk a.qs aid sid br wt tb now with
          hc | ⟨hq, hn⟩
        · rw [hc]; exact hbound
        · intro e he
          rw [hq] at he
          rw [hn]
          rcases List.mem_append.mp he with h1 | h1
          · have := hbound e h1; omega
          · simp only [List.mem_singleton] at h1
            subst h1
            simp
      · rcases enqueue_cases cfg pOk a.qs aid sid br wt tb now with
          hc | ⟨hq, hn⟩
        · rw [IdsNodup, hc]; exact hnd
        · rw [IdsNodup, hq, List.map_append]
          rw [List.nodup_append]
          refine ⟨hnd, by simp, ?_⟩
          intro x hx1 hx2
          simp only [List.map_cons, List.map_nil, List.mem_singleton] at hx2
          obtain ⟨e, he, hex⟩ := List.mem_map.mp hx1
          have := hbound e he
          omega
  | dequeueStep pOk aid _ _ h =>
      subst h
      refine ⟨?_, ?_, procInv_of_mem a.pc
        (fun e he _ => dequeue_mem pOk a.qs aid e he) hproc⟩
      · rcases dequeue_cases pOk a.qs aid with hc | ⟨pos, hq, hn⟩
        · rw [hc]; exact hbound
        · intro e he
          rw [hn]
          exact hbound e (dequeue_mem pOk a.qs aid e he)
      · rcases dequeue_cases pOk a.qs aid with hc | ⟨pos, hq, hn⟩
        · rw [IdsNodup, hc]; exact hnd
        · rw [IdsNodup, hq]
          exact List.Nodup.sublist
            ((List.eraseIdx_sublist a.qs.queue pos).map _) hnd
  | retryStep pOk aid _ _ h =>
      subst h
      refine ⟨?_, ?_, procInv_of_mem a.pc
        (retry_processing_mem cfg pOk a.qs aid) hproc⟩
      · rcases retry_cases cfg pOk a.qs aid with hc | ⟨pos, hlt, hq, hn⟩
        · rw [hc]; exact hbound
        · intro e he
          rw [hq] at he
          rw [hn]
          rcases List.mem_or_eq_of_mem_set he with h1 | h1
          · exact hbound e h1
          · rw [h1]
            exact hbound (a.qs.queue.getD pos defaultEntry)
              (mem_getD defaultEntry hlt)
      · rcases retry_cases cfg pOk a.qs aid with hc | ⟨pos, hlt, hq, hn⟩
        · rw [IdsNodup, hc]; exact hnd
        · rw [IdsNodup, hq, map_id_set a.qs.queue pos
            (MergeQueue.repend (a.qs.queue.getD pos defaultEntry)) rfl]
          exact hnd
  | shutdownStep _ _ h =>
      subst h
      exact ⟨hbound, hnd, hproc⟩
  | checkContStep _ _ hpc2 hsd2 h =>
      subst h
      refine ⟨hbound, hnd, ?_⟩
      rw [hpc2] at hproc
      exact hproc
  | checkExitStep _ _ hpc2 hsd2 h =>
      subst h
      refine ⟨hbound, hnd, ?_⟩
      rw [hpc2] at hproc
      exact hproc
  | claimStep pOk hok _ _ hpc2 h =>
      subst hok
      subst h
      rw [hpc2] at hproc
      rcases claimNext_true_cases a.qs with ⟨hfp, heq⟩ |
        ⟨pos, hfp, hlt, heq⟩
      · rw [heq]
        exact ⟨hbound, hnd, hproc⟩
      · rw [heq]
        refine ⟨?_, ?_, ?_⟩
        · intro e he
          simp only at he
          rcases List.mem_or_eq_of_mem_set he with h1 | h1
          · exact hbound e h1
          · rw [h1]
            exact hbound (a.qs.queue.getD pos defaultEntry)
              (mem_getD defaultEntry hlt)
        · rw [IdsNodup]
          simp only
          rw [map_id_set a.qs.queue pos
            (MergeQueue.claimed (a.qs.queue.getD pos defaultEntry)) rfl]
          exact hnd
        · intro e he hst
          simp only at he
          rcases List.mem_or_eq_of_mem_set he with h1 | h1
          · exact absurd hst (hproc e h1)
          · rw [h1]
  | recordStep pOk i result _ _ hpc2 h =>
      subst h
      rw [hpc2] at hproc
      rcases recordOutcome_cases pOk a.qs i result with ⟨heq, hfp⟩ |
        ⟨pos, hfp, hlt, hq, hn⟩
      · rw [heq]
        refine ⟨hbound, hnd, ?_⟩
        intro e he hst
        have := hproc e he hst
        have h2 := findPos_none_all hfp e he
        simp only [decide_eq_true_eq] at h2
        exact absurd this (by simpa using h2)
      · have hidpos : (a.qs.queue.getD pos defaultEntry).id = i := by
          have := findPos_some_getD defaultEntry hfp
          simpa using this
        refine ⟨?_, ?_, ?_⟩
        · intro e he
          rw [hq] at he
          rw [hn]
          rcases List.mem_or_eq_of_mem_set he with h1 | h1
          · exact hbound e h1
          · rw [h1, applyOutcome_id]
            exact hbound (a.qs.queue.getD pos defaultEntry)
              (mem_getD defaultEntry hlt)
        · rw [IdsNodup, hq, map_id_set a.qs.queue pos
            (MergeQueue.applyOutcome result (a.qs.queue.getD pos defaultEntry))
            (applyOutcome_id result _)]
          exact hnd
        · intro e he hst
          rw [hq] at he
          rcases List.mem_or_eq_of_mem_set he with h1 | h1
          · have heid : e.id = i := hproc e h1 hst
            have := mem_set_eq_of_id hnd hlt hidpos heid he
            rw [this] at hst
            exact absurd hst (applyOutcome_status result _)
          · rw [h1] at hst
            exact absurd hst (applyOutcome_status result _)

/-- C4 (amended): in every state reachable by runs in which the
persistence write inside each claim step succeeds, at most one entry is
Processing.  (The counterexample shows the bound fails when a claim-step
persistence write fails: that entry is left Processing and the processor
moves on.) -/
theorem c4_amended_processing_at_most_one (cfg : Config) (s : SysState)
    (h : ReachableSafe cfg s) : processingCount s.qs.queue ≤ 1 := by
  have hinv : SysInv s := by
    unfold ReachableSafe at h
    induction h with
    | refl =>
        exact ⟨fun e he => absurd he (List.not_mem_nil e),
          List.Pairwise.nil,
          fun e he => absurd he (List.not_mem_nil e)⟩
    | tail hab hbc ih => exact sysInv_step hbc ih
  obtain ⟨hbound, hnd, hproc⟩ := hinv
  cases hpc : s.pc with
  | merging i =>
      rw [hpc] at hproc
      exact processingCount_le_one_of_all_id hnd hproc
  | check =>
      rw [hpc] at hproc
      rw [processingCount_eq_zero hproc]
      exact Nat.zero_le 1
  | wait =>
      rw [hpc] at hproc
      rw [processingCount_eq_zero hproc]
      exact Nat.zero_le 1
  | done =>
      rw [hpc] at hproc
      rw [processingCount_eq_zero hproc]
      exact Nat.zero_le 1

/-- C4 witness: the bound at the concrete reachable state in which A has
been claimed, along the run enqueue A, pass the check, claim A with the
persistence write succeeding. -/
theorem c4_amended_processing_at_most_one_witness :
    processingCount sProcA.qs.queue ≤ 1 := by
  apply c4_amended_processing_at_most_one cfgA sProcA
  have h1 : Step cfgA (fun x => x = true) initState sEnqA :=
    .enqueueStep true "A" "s1" "b" "w" "main" 0 _ _ (by decide)
  have h2 : Step cfgA (fun x => x = true) sEnqA sWaitA :=
    .checkContStep _ _ rfl rfl (by decide)
  have h3 : Step cfgA (fun x => x = true) sWaitA sProcA :=
    .claimStep true (by exact rfl) sWaitA sProcA rfl (by decide)
  exact Relation.ReflTransGen.head h1 (Relation.ReflTransGen.head h2
    (Relation.ReflTransGen.single h3))

/-!  C4 counterexample states. -/

/-- System state after enqueueing A and B. -/
def sEnqAB : SysState := ⟨⟨[entA0p, entB1p], false, 2⟩, .check⟩

/-- System state after the processor passes the check with A and B
pending. -/
def sWaitAB : SysState := ⟨⟨[entA0p, entB1p], false, 2⟩, .wait⟩

/-- System state after the claim of A whose persistence write failed: A is
left Processing and the processor is back at its check. -/
def sOrphanA : SysState := ⟨⟨[entA0proc, entB1p], false, 2⟩, .check⟩

/-- System state after the processor passes the check again. -/
def sWaitOrphanA : SysState := ⟨⟨[entA0proc, entB1p], false, 2⟩, .wait⟩

/-- System state in which both A and B are Processing. -/
def sTwoProc : SysState := ⟨⟨[entA0proc, entB1proc], false, 2⟩, .merging 1⟩

/-- C4 counterexample: when the persistence write inside the claim step
fails, the claimed entry stays Processing while the processor loop
continues; the next claim then yields a second Processing entry, so a
state with processing_count = 2 is reachable. -/
theorem c4_counterexample :
    ReachableAny cfgA sTwoProc ∧
    processingCount sTwoProc.qs.queue = 2 := by
  constructor
  · have h1 : Step cfgA (fun _ => True) initState sEnqA :=
      .enqueueStep true "A" "s1" "b" "w" "main" 0 _ _ (by decide)
    have h2 : Step cfgA (fun _ => True) sEnqA sEnqAB :=
      .enqueueStep true "B" "s2" "b2" "w2" "main" 0 _ _ (by decide)
    have h3 : Step cfgA (fun _ => True) sEnqAB sWaitAB :=
      .checkContStep _ _ rfl rfl (by decide)
    have h4 : Step cfgA (fun _ => True) sWaitAB sOrphanA :=
      .claimStep false trivial _ _ rfl (by decide)
    have h5 : Step cfgA (fun _ => True) sOrphanA sWaitOrphanA :=
      .checkContStep _ _ rfl rfl (by decide)
    have h6 : Step cfgA (fun _ => True) sWaitOrphanA sTwoProc :=
      .claimStep true trivial _ _ rfl (by decide)
    exact Relation.ReflTransGen.head h1 (Relation.ReflTransGen.head h2
      (Relation.ReflTransGen.head h3 (Relation.ReflTransGen.head h4
        (Relation.ReflTransGen.head h5
          (Relation.ReflTransGen.single h6)))))
  · decide

/-!  C8. -/

theorem lookupRef_setRef_self (refs : List (String × Nat)) (name : String)
    (oid : Nat) : lookupRef (setRef refs name oid) name = some oid := by
  induction refs with
  | nil => simp [setRef, lookupRef]
  | cons p rest ih =>
      by_cases hp : p.1 = name
      · simp [setRef, lookupRef, hp]
      · simp only [setRef, if_neg hp, lookupRef, List.find?]
        rw [decide_eq_false hp]
        simpa [lookupRef] using ih

/-- C8: the merge-strategy Merger resolves both branches, and then: if the
analysis reports up-to-date, returns Success with the target branch's
current commit; if fast-forwardable, moves the target ref to the source
commit and returns Success with the source id; if the merged index has
conflicts, returns Conflict with the collected conflicting paths and the
merge state abandoned; otherwise creates a merge commit with parents
[target, source] and message "Merge agent <agent_id> into
<target_branch>", advances the target ref through HEAD, cleans the merge
state, and returns Success with the new commit id. -/
theorem c8_do_merge_spec (r : RepoState) (entry : QueueEntry)
    (analysis : AnalysisFlags) (idx : IndexResult) (target agent : Nat)
    (ht : lookupRef r.refs entry.target_branch = some target)
    (ha : lookupRef r.refs entry.branch = some agent) :
    ∃ r' res, Merger.merge r entry analysis idx = .ok (r', res) ∧
    (analysis.upToDate = true →
      res = .success target ∧ r'.commits = r.commits ∧
      lookupRef r'.refs entry.target_branch = some target) ∧
    (analysis.upToDate = false → analysis.fastForward = true →
      res = .success agent ∧ r'.commits = r.commits ∧
      lookupRef r'.refs entry.target_branch = some agent) ∧
    (∀ recs, analysis.upToDate = false → analysis.fastForward = false →
      idx = .conflicted recs →
      res = .conflict (Merger.get_conflict_files recs) ∧
      r'.mergeStateClean = true ∧ r'.commits = r.commits) ∧
    (∀ tid, analysis.upToDate = false → analysis.fastForward = false →
      idx = .clean tid →
      res = .success r.nextOid ∧
      r'.commits = r.commits
        ++ [⟨r.nextOid, [target, agent],
             "Merge agent " ++ entry.agent_id ++ " into "
               ++ entry.target_branch⟩] ∧
      lookupRef r'.refs entry.target_branch = some r.nextOid ∧
      r'.mergeStateClean = true) := by
  simp only [Merger.merge, ht, ha]
  rcases analysis with ⟨u, f⟩
  cases u with
  | true =>
      refine ⟨_, _, rfl, ?_, ?_, ?_, ?_⟩
      · intro _
        exact ⟨rfl, rfl, ht⟩
      · intro hcontra
        cases hcontra
      · intro recs hcontra
        cases hcontra
      · intro tid hcontra
        cases hcontra
  | false =>
      cases f with
      | true =>
          refine ⟨_, _, rfl, ?_, ?_, ?_, ?_⟩
          · intro hcontra
            cases hcontra
          · intro _ _
            exact ⟨rfl, rfl, lookupRef_setRef_self _ _ _⟩
          · intro recs _ hcontra
            cases hcontra
          · intro tid _ hcontra
            cases hcontra
      | false =>
          cases idx with
          | conflicted recs0 =>
              refine ⟨_, _, rfl, ?_, ?_, ?_, ?_⟩
              · intro hcontra
                cases hcontra
              · intro _ hcontra
                cases hcontra
              · intro recs _ _ hrecs
                cases hrecs
                exact ⟨rfl, rfl, rfl⟩
              · intro tid _ _ hcontra
                cases hcontra
          | clean tid0 =>
              refine ⟨_, _, rfl, ?_, ?_, ?_, ?_⟩
              · intro hcontra
                cases hcontra
              · intro _ hcontra
                cases hcontra
              · intro recs _ _ hcontra
                cases hcontra
              · intro tid _ _ _
                refine ⟨rfl, rfl, ?_, rfl⟩
                exact lookupRef_setRef_self _ _ _

/-- Concrete repository for the C8 witness: main at commit 10, the agent
branch at commit 20, next fresh oid 30. -/
def repo0 : RepoState :=
  ⟨[("main", 10), ("agent-b", 20)], "main", [], 30, true⟩

/-- Concrete entry for the C8 witness. -/
def entM : QueueEntry :=
  ⟨0, "A", "s1", "agent-b", "w", "main", 1, 0, .processing, none, []⟩

/-- C8 witness: the theorem applied to the concrete repository, with the
normal-merge (neither up-to-date nor fast-forward) analysis and a clean
merged index. -/
theorem c8_do_merge_spec_witness :
    ∃ r' res,
      Merger.merge repo0 entM ⟨false, false⟩ (.clean 7) = .ok (r', res) ∧
      (false = true →
        res = .success 10 ∧ r'.commits = repo0.commits ∧
        lookupRef r'.refs entM.target_branch = some 10) ∧
      (false = false → false = true →
        res = .success 20 ∧ r'.commits = repo0.commits ∧
        lookupRef r'.refs entM.target_branch = some 20) ∧
      (∀ recs, false = false → false = false →
        IndexResult.clean 7 = .conflicted recs →
        res = .conflict (Merger.get_conflict_files recs) ∧
        r'.mergeStateClean = true ∧ r'.commits = repo0.commits) ∧
      (∀ tid, false = false → false = false →
        IndexResult.clean 7 = .clean tid →
        res = .success repo0.nextOid ∧
        r'.commits = repo0.commits
          ++ [⟨repo0.nextOid, [10, 20],
               "Merge agent " ++ entM.agent_id ++ " into "
                 ++ entM.target_branch⟩] ∧
        lookupRef r'.refs entM.target_branch = some repo0.nextOid ∧
        r'.mergeStateClean = true) :=
  c8_do_merge_spec repo0 entM ⟨false, false⟩ (.clean 7) 10 20 (by decide)
    (by decide)

/-!  C10. -/

/-- C10: handle_connection writes exactly one response per received line
(the response list has the same length as the line list), and a line that
fails to parse as a Request is answered with exactly one Error response
carrying status ERROR and the Invalid-request message, while later lines
are still processed (the loop continues, keeping the connection open). -/
theorem c10_one_response_per_line (parse : String → Except String Request)
    (cfg : Config) (pOk : Bool) (now : Nat) (s : QueueState)
    (lines : List String) :
    (Ipc.handle_connection parse cfg pOk now s lines).1.length
      = lines.length ∧
    ∀ (i : Nat) (l e : String), lines[i]? = some l → parse l = .error e →
      (Ipc.handle_connection parse cfg pOk now s lines).1[i]?
        = some (Response.errorResp "ERROR" ("Invalid request: " ++ e)) := by
  induction lines generalizing s with
  | nil =>
      refine ⟨rfl, ?_⟩
      intro i l e hl hp
      simp at hl
  | cons line rest ih =>
      obtain ⟨ihlen, ihget⟩ :=
        ih (Ipc.handleLine parse cfg pOk now s line).2
      constructor
      · simp only [Ipc.handle_connection, List.length_cons, ihlen]
      · intro i l e hl hp
        cases i with
        | zero =>
            simp only [List.getElem?_cons_zero, Option.some.injEq] at hl
            subst hl
            simp only [Ipc.handle_connection, List.getElem?_cons_zero,
              Option.some.injEq]
            simp [Ipc.handleLine, hp]
        | succ n =>
            simp only [List.getElem?_cons_succ] at hl
            simp only [Ipc.handle_connection, List.getElem?_cons_succ]
            exact ihget n l e hl hp

/-- Parser stub that rejects every line, used by the C10 witness. -/
def parse0 : String → Except String Request := fun _ => .error "bad"

/-- C10 witness: a single unparseable line receives exactly the Error
response, and the response count matches the line count. -/
theorem c10_one_response_per_line_witness :
    (Ipc.handle_connection parse0 cfgA true 0 qs0 ["x"]).1.length
      = (["x"] : List String).length ∧
    (Ipc.handle_connection parse0 cfgA true 0 qs0 ["x"]).1[0]?
      = some (Response.errorResp "ERROR" ("Invalid request: " ++ "bad")) :=
  ⟨(c10_one_response_per_line parse0 cfgA true 0 qs0 ["x"]).1,
   (c10_one_response_per_line parse0 cfgA true 0 qs0 ["x"]).2 0 "x" "bad"
     rfl rfl⟩

end ForkJoin
